import Mathlib

/-!
Verification development for the pybacktest strategy-evaluation and
order-execution engine.

The definitions below are a shallow embedding of the Python sources:

* `Portfolio`, `Action` — `src/pybacktest_sciencemj/models.py` (the
  `Portfolio` class with `cash`, `tickers`, `stock_count`, `buy_value`,
  and its `update` method; the pydantic `Action` model).
* `sellsOf`, `buysOf`, `execSells`, `execBuys`, `execBuyPhase`,
  `executeAction` — `Backtest.execute_action` in
  `src/pybacktest/backtest.py` (partition, sells first with fatal
  oversell, proportional buy rationing with a floating-point residue
  guard).  Python floats are embedded as `ℚ`, share counts as `ℤ`.
  The in-place mutation of the portfolio plus the raised exception is
  embedded as an `ExecResult` that carries the portfolio state and the
  recorded trades on both the success and the error constructor.
* `resolveQuantity`, `buyClampedQty`, `createAction`, `criteriaOf`,
  `ruleFires`, `applySide`, `applyStrategy` —
  `StrategyManager.apply_strategy` / `create_action` in
  `src/pybacktest_sciencemj/strategy.py`.  The pandas indicator
  computation (rolling means over the price frame) is abstracted into
  an explicit `indicator`/`price` argument; everything downstream of
  those numbers is translated directly.
* `StockData`, `insertSorted`, `asofClose`, `valueLoop`,
  `getProtfolioValue` — `Backtest.get_protfolio_value` in
  `src/pybacktest/backtest.py`, including its in-place insertion of a
  placeholder row into the live price series (a `none` close models the
  all-NaN row; `asofClose` models `DataFrame.asof`, which skips NaN
  rows).
-/

namespace PyBacktest

/-- A portfolio: cash, the tracked tickers, per-ticker share counts and
per-ticker average cost basis (`buy_value`), from
`pybacktest_sciencemj/models.py`.  The Python dicts keyed by ticker are
embedded as total functions on `String`. -/
structure Portfolio where
  cash : ℚ
  tickers : List String
  stock_count : String → ℤ
  buy_value : String → ℚ

/-- `Portfolio.__init__(cash, tickers)`: zero holdings, zero basis. -/
def Portfolio.init (cash : ℚ) (tickers : List String) : Portfolio :=
  { cash := cash, tickers := tickers, stock_count := fun _ => 0, buy_value := fun _ => 0 }

/-- `Portfolio.update(ticker, amount, price)` from
`pybacktest_sciencemj/models.py`: a positive `amount` buys (cash down by
`amount*price`, count up, basis becomes the volume-weighted average), a
negative `amount` sells (cash up by `-amount*price`, count down, basis
reset to `0` when the resulting count is `≤ 0`), `amount = 0` is a
no-op. -/
def Portfolio.update (p : Portfolio) (ticker : String) (amount : ℤ) (price : ℚ) : Portfolio :=
  if 0 < amount then
    let currentValue : ℚ := (p.stock_count ticker : ℚ) * p.buy_value ticker
    let cost : ℚ := (amount : ℚ) * price
    let updatedValue : ℚ := currentValue + cost
    { cash := p.cash - cost
      tickers := p.tickers
      stock_count := fun t => if t = ticker then p.stock_count ticker + amount else p.stock_count t
      buy_value := fun t =>
        if t = ticker then updatedValue / ((p.stock_count ticker + amount : ℤ) : ℚ)
        else p.buy_value t }
  else if amount < 0 then
    let rev : ℚ := ((-amount : ℤ) : ℚ) * price
    { cash := p.cash + rev
      tickers := p.tickers
      stock_count := fun t => if t = ticker then p.stock_count ticker + amount else p.stock_count t
      buy_value := fun t =>
        if t = ticker then (if p.stock_count ticker + amount ≤ 0 then 0 else p.buy_value t)
        else p.buy_value t }
  else p

/-- The pydantic `Action` model: ticker, side (`"buy"` / `"sell"`),
integer quantity, price. -/
structure Action where
  ticker : String
  type : String
  quantity : ℤ
  price : ℚ
deriving DecidableEq

/-- One entry of the `Backtest.trades` audit log (the date is fixed for
a single `execute_action` batch and is omitted). -/
structure Trade where
  ticker : String
  type : String
  quantity : ℤ
  price : ℚ
deriving DecidableEq

/-- Result of `execute_action`: either normal completion or the fatal
oversell `ValueError` (called `OversellError` by the spec).  The Python
engine mutates the portfolio in place and appends trades as it goes, so
the error constructor also carries the state at the moment the
exception is raised. -/
inductive ExecResult where
  | ok (p : Portfolio) (trades : List Trade)
  | oversellError (p : Portfolio) (trades : List Trade)

/-- The portfolio state left behind by `execute_action` (on error this
is the partially mutated state, as for the in-place Python object). -/
def resState : ExecResult → Portfolio
  | .ok p _ => p
  | .oversellError p _ => p

/-- The trades recorded by `execute_action` up to completion or abort. -/
def resTrades : ExecResult → List Trade
  | .ok _ t => t
  | .oversellError _ t => t

/-- Whether `execute_action` raised the oversell error. -/
def isOversell : ExecResult → Bool
  | .ok _ _ => false
  | .oversellError _ _ => true

/-- The sell side of the partition in `execute_action`: orders with
positive quantity and type `"sell"`, in batch order. -/
def sellsOf (actions : List Action) : List Action :=
  actions.filter (fun a => decide (0 < a.quantity) && decide (a.type = "sell"))

/-- The buy side of the partition in `execute_action`: orders with
positive quantity and type `"buy"`, in batch order. -/
def buysOf (actions : List Action) : List Action :=
  actions.filter (fun a => decide (0 < a.quantity) && decide (a.type = "buy"))

/-- The trade record appended for a sell of `a`. -/
def sellTradeOf (a : Action) : Trade :=
  { ticker := a.ticker, type := "sell", quantity := a.quantity, price := a.price }

/-- The trade record appended for a buy of `a` executed at the
(possibly rescaled) quantity `q`. -/
def buyTradeOf (a : Action) (q : ℤ) : Trade :=
  { ticker := a.ticker, type := "buy", quantity := q, price := a.price }

/-- Step 1 of `execute_action`: execute the sells in batch order; a
sell with `stock_count < quantity` raises (no partial fill), leaving
the portfolio and trade log as mutated so far. -/
def execSells : Portfolio → List Trade → List Action → ExecResult
  | p, trades, [] => .ok p trades
  | p, trades, a :: rest =>
    if a.quantity ≤ p.stock_count a.ticker then
      execSells (p.update a.ticker (-a.quantity) a.price) (trades ++ [sellTradeOf a]) rest
    else .oversellError p trades

/-- `sum(action.price * action.quantity for action in buys)`. -/
def totalBuyCost (buys : List Action) : ℚ :=
  (buys.map (fun a => a.price * (a.quantity : ℚ))).sum

/-- The buy loop of `execute_action`: each quantity is floored through
the scaling ratio; a buy whose scaled cost exceeds the remaining cash
is skipped with a warning (never fatal). -/
def execBuys : Portfolio → List Trade → ℚ → List Action → Portfolio × List Trade
  | p, trades, _, [] => (p, trades)
  | p, trades, ratio, a :: rest =>
    if 0 < ⌊(a.quantity : ℚ) * ratio⌋ then
      if ((⌊(a.quantity : ℚ) * ratio⌋ : ℤ) : ℚ) * a.price ≤ p.cash then
        execBuys (p.update a.ticker ⌊(a.quantity : ℚ) * ratio⌋ a.price)
          (trades ++ [buyTradeOf a ⌊(a.quantity : ℚ) * ratio⌋]) ratio rest
      else execBuys p trades ratio rest
    else execBuys p trades ratio rest

/-- Step 2 of `execute_action`, entered with the post-sell portfolio:
no buys → done; total cost above positive available cash → uniform
ratio `available / total`; total cost above non-positive available
cash → skip all buys; otherwise full execution (ratio `1`). -/
def execBuyPhase (p1 : Portfolio) (t1 : List Trade) (buys : List Action) : ExecResult :=
  if buys = [] then .ok p1 t1
  else if p1.cash < totalBuyCost buys ∧ 0 < p1.cash then
    .ok (execBuys p1 t1 (p1.cash / totalBuyCost buys) buys).1
        (execBuys p1 t1 (p1.cash / totalBuyCost buys) buys).2
  else if p1.cash < totalBuyCost buys ∧ p1.cash ≤ 0 then
    .ok p1 t1
  else
    .ok (execBuys p1 t1 1 buys).1 (execBuys p1 t1 1 buys).2

/-- `Backtest.execute_action` from `src/pybacktest/backtest.py`:
partition the batch, run the sells, then run the buy phase against the
post-sell cash. -/
def executeAction (p : Portfolio) (actions : List Action) : ExecResult :=
  match execSells p [] (sellsOf actions) with
  | .oversellError p' t' => .oversellError p' t'
  | .ok p1 t1 => execBuyPhase p1 t1 (buysOf actions)

theorem executeAction_ok (p : Portfolio) (actions : List Action) (p1 : Portfolio)
    (t1 : List Trade) (hs : execSells p [] (sellsOf actions) = .ok p1 t1) :
    executeAction p actions = execBuyPhase p1 t1 (buysOf actions) := by
  unfold executeAction
  rw [hs]

/-- The quantity-resolution step at the top of
`StrategyManager.create_action`: `"count"` passes the literal value
through (the rule documents use integer counts; the embedding floors),
`"percent"` is `max(floor(held * value/100), 1)`, `"value"` is the
floor division `value // price`; an unknown mode raises (`none`). -/
def resolveQuantity (qtype : String) (qval : ℚ) (ticker : String) (price : ℚ)
    (p : Portfolio) : Option ℤ :=
  if qtype = "count" then some ⌊qval⌋
  else if qtype = "percent" then some (max ⌊(p.stock_count ticker : ℚ) * (qval / 100)⌋ 1)
  else if qtype = "value" then some ⌊qval / price⌋
  else none

/-- The buy branch of `create_action`:
`over_quantity = ceil((price*quantity - cash) / price)` and the order
quantity is `min(quantity, quantity - over_quantity)`. -/
def buyClampedQty (q : ℤ) (price cash : ℚ) : ℤ :=
  min q (q - ⌈(price * (q : ℚ) - cash) / price⌉)

/-- `StrategyManager.create_action`: resolve the quantity, then clamp —
buys by the cash-feasibility ceiling trick, sells by
`min(quantity, stock_count)`; an unknown side raises (`none`). -/
def createAction (ty ticker : String) (price : ℚ) (qtype : String) (qval : ℚ)
    (p : Portfolio) : Option Action :=
  match resolveQuantity qtype qval ticker price p with
  | none => none
  | some q =>
    if ty = "buy" then
      some { ticker := ticker, type := ty, quantity := buyClampedQty q price p.cash, price := price }
    else if ty = "sell" then
      some { ticker := ticker, type := ty, quantity := min q (p.stock_count ticker), price := price }
    else none

/-- The `criteria` computation in `StrategyManager.apply_strategy`:
starting from the traded ticker's cost basis, `"percent-change"`
replaces it by the threshold value, `"point"` adds the value,
`"profit-rate"` multiplies by `(100 + value)/100`; an unknown kind
raises (`none`). -/
def criteriaOf (kind : String) (value costBasis : ℚ) : Option ℚ :=
  if kind = "percent-change" then some value
  else if kind = "point" then some (costBasis + value)
  else if kind = "profit-rate" then some (costBasis * ((100 + value) / 100))
  else none

/-- The sign-directed trigger of `apply_strategy`: with `crit[1] ≤ 0`
the rule fires when the indicator is `≤` the criteria, otherwise when
it is `≥` the criteria. -/
def ruleFires (kind : String) (value costBasis indicator : ℚ) : Option Bool :=
  match criteriaOf kind value costBasis with
  | none => none
  | some criteria =>
    if value ≤ 0 then some (decide (indicator ≤ criteria))
    else some (decide (criteria ≤ indicator))

/-- One rule of a `TradeAction`, reduced to the fields the evaluator
arithmetic consumes: threshold kind/value (`criteria`) and quantity
mode/value.  The indicator (pandas `current`/`average` over the
reference frame) is passed in as a number. -/
structure SideRule where
  kind : String
  value : ℚ
  qtype : String
  qval : ℚ

/-- One half (buy part or sell part) of `apply_strategy`: compute the
criteria from the cost basis, compare the indicator in the direction
given by the sign of the threshold value, and emit the created action
when the rule fires. -/
def applySide (side ticker : String) (price : ℚ) (rule : SideRule)
    (p : Portfolio) (indicator : ℚ) : Option (List Action) :=
  match criteriaOf rule.kind rule.value (p.buy_value ticker) with
  | none => none
  | some criteria =>
    if rule.value ≤ 0 then
      if indicator ≤ criteria then (createAction side ticker price rule.qtype rule.qval p).map (fun a => [a])
      else some []
    else
      if criteria ≤ indicator then (createAction side ticker price rule.qtype rule.qval p).map (fun a => [a])
      else some []

/-- `StrategyManager.apply_strategy` for one traded ticker: the buy
rule runs first, then the sell rule, both against the same (unmutated)
portfolio and the same execution price (the buy rule's `trade_as`
price); the emitted actions are concatenated buys-then-sells. -/
def applyStrategy (ticker : String) (price : ℚ) (buyRule sellRule : SideRule)
    (buyInd sellInd : ℚ) (p : Portfolio) : Option (List Action) :=
  match applySide "buy" ticker price buyRule p buyInd with
  | none => none
  | some buyActs =>
    match applySide "sell" ticker price sellRule p sellInd with
    | none => none
    | some sellActs => some (buyActs ++ sellActs)

/-- A ticker's price series as held by `Stock.data`: rows of
(date, Close), kept sorted by date; `none` stands for the all-NaN
placeholder row that `get_protfolio_value` writes via
`stock.data.loc[date] = None`. -/
structure StockData where
  ticker : String
  rows : List (ℤ × Option ℚ)
deriving DecidableEq

/-- `stock.data.loc[date] = None` followed by `sort_index` on a
date-sorted frame: insert the placeholder row at its sorted position. -/
def insertSorted (date : ℤ) : List (ℤ × Option ℚ) → List (ℤ × Option ℚ)
  | [] => [(date, none)]
  | r :: rest => if date ≤ r.1 then (date, none) :: r :: rest else r :: insertSorted date rest

/-- `stock.data.asof(date)["Close"]`: the Close of the last row at or
before `date` whose values are not all NaN; `none` when no such row
exists (pandas returns NaN). -/
def asofClose (rows : List (ℤ × Option ℚ)) (date : ℤ) : Option ℚ :=
  ((rows.filter (fun r => decide (r.1 ≤ date) && r.2.isSome)).getLast?).bind Prod.snd

/-- The loop body of `get_protfolio_value`: for every tracked stock, if
the date is absent from its index, write a placeholder row into the
live series and re-sort, then add `stock_count * asof Close` to the
running total.  Returns the (possibly mutated) series list and the
stocks' value contribution; `none` models a NaN total. -/
def valueLoop (p : Portfolio) (date : ℤ) : List StockData → List StockData × Option ℚ
  | [] => ([], some 0)
  | s :: rest =>
    let (s', contrib) :=
      if s.ticker ∈ p.tickers then
        let rows' := if date ∈ s.rows.map Prod.fst then s.rows else insertSorted date s.rows
        ({ s with rows := rows' },
         (asofClose rows' date).map (fun c => (p.stock_count s.ticker : ℚ) * c))
      else (s, some 0)
    let (rest', vrest) := valueLoop p date rest
    (s' :: rest',
     match contrib, vrest with
     | some a, some b => some (a + b)
     | _, _ => none)

/-- `Backtest.get_protfolio_value`: cash plus the per-stock as-of
position values, together with the state of the stock series after the
call (the call site keeps using the returned, possibly mutated,
series). -/
def getProtfolioValue (p : Portfolio) (stocks : List StockData) (date : ℤ) :
    List StockData × Option ℚ :=
  let (stocks', v) := valueLoop p date stocks
  (stocks', v.map (fun x => p.cash + x))

/-! ### Helper lemmas about the partition and the portfolio update -/

theorem mem_sellsOf {a : Action} {actions : List Action} (h : a ∈ sellsOf actions) :
    a ∈ actions ∧ 0 < a.quantity ∧ a.type = "sell" := by
  have h' := List.mem_filter.mp h
  refine ⟨h'.1, ?_, ?_⟩
  · have := h'.2
    simp only [Bool.and_eq_true, decide_eq_true_eq] at this
    exact this.1
  · have := h'.2
    simp only [Bool.and_eq_true, decide_eq_true_eq] at this
    exact this.2

theorem mem_buysOf {a : Action} {actions : List Action} (h : a ∈ buysOf actions) :
    a ∈ actions ∧ 0 < a.quantity ∧ a.type = "buy" := by
  have h' := List.mem_filter.mp h
  refine ⟨h'.1, ?_, ?_⟩
  · have := h'.2
    simp only [Bool.and_eq_true, decide_eq_true_eq] at this
    exact this.1
  · have := h'.2
    simp only [Bool.and_eq_true, decide_eq_true_eq] at this
    exact this.2

theorem update_stock_count_other (p : Portfolio) (ticker t : String) (amount : ℤ) (price : ℚ)
    (h : t ≠ ticker) : (p.update ticker amount price).stock_count t = p.stock_count t := by
  unfold Portfolio.update
  split_ifs <;> simp [h]

theorem update_sell_cash (p : Portfolio) (ticker : String) (q : ℤ) (price : ℚ) (hq : 0 < q) :
    (p.update ticker (-q) price).cash = p.cash + (q : ℚ) * price := by
  unfold Portfolio.update
  rw [if_neg (by omega), if_pos (by omega)]
  push_cast
  ring

theorem update_sell_count (p : Portfolio) (ticker : String) (q : ℤ) (price : ℚ) (hq : 0 < q) :
    (p.update ticker (-q) price).stock_count ticker = p.stock_count ticker - q := by
  unfold Portfolio.update
  rw [if_neg (by omega), if_pos (by omega)]
  simp
  ring

theorem update_buy_cash (p : Portfolio) (ticker : String) (q : ℤ) (price : ℚ) (hq : 0 < q) :
    (p.update ticker q price).cash = p.cash - (q : ℚ) * price := by
  unfold Portfolio.update
  rw [if_pos hq]

theorem update_buy_count (p : Portfolio) (ticker : String) (q : ℤ) (price : ℚ) (hq : 0 < q) :
    (p.update ticker q price).stock_count ticker = p.stock_count ticker + q := by
  unfold Portfolio.update
  rw [if_pos hq]
  simp

theorem update_count_self (p : Portfolio) (ticker : String) (q : ℤ) (price : ℚ) (hq : q ≠ 0) :
    (p.update ticker q price).stock_count ticker = p.stock_count ticker + q := by
  unfold Portfolio.update
  rcases lt_or_gt_of_ne hq with h | h
  · rw [if_neg (by omega), if_pos h]
    simp
  · rw [if_pos h]
    simp

theorem update_buy_value_other (p : Portfolio) (ticker t : String) (amount : ℤ) (price : ℚ)
    (h : t ≠ ticker) : (p.update ticker amount price).buy_value t = p.buy_value t := by
  unfold Portfolio.update
  split_ifs <;> simp [h]

theorem update_sell_buy_value_zero (p : Portfolio) (ticker : String) (q : ℤ) (price : ℚ)
    (hq : q < 0) (h0 : p.stock_count ticker + q ≤ 0) :
    (p.update ticker q price).buy_value ticker = 0 := by
  unfold Portfolio.update
  rw [if_neg (by omega), if_pos hq]
  simp [h0]

theorem update_zero (p : Portfolio) (ticker : String) (price : ℚ) :
    p.update ticker 0 price = p := by
  unfold Portfolio.update
  simp

/-! ### Claim C2 — oversell -/

/-- Portfolio holding 5 shares of `Y` and 5 of `X`. -/
def twoHoldingsPortfolio : Portfolio :=
  { cash := 0, tickers := ["X", "Y"],
    stock_count := fun t => if t = "Y" then 5 else if t = "X" then 5 else 0,
    buy_value := fun _ => 0 }

/-- A batch whose second sell oversells: sell 3 of `Y` (valid), then
sell 10 of `X` (only 5 held). -/
def oversellSecondBatch : List Action :=
  [{ ticker := "Y", type := "sell", quantity := 3, price := 10 },
   { ticker := "X", type := "sell", quantity := 10, price := 10 }]

/-- Claim C2, counterexample: a batch whose overselling order is not
the first sell does fail fatally, but the portfolio is NOT left
unmutated — the earlier valid sell has already executed (the `Y`
position dropped from 5 to 2, cash rose from 0 to 30) and its trade is
recorded.  This refutes the claimed batch-wide atomicity. -/
theorem c2_oversell_atomicity_cex :
    isOversell (executeAction twoHoldingsPortfolio oversellSecondBatch) = true ∧
    (resState (executeAction twoHoldingsPortfolio oversellSecondBatch)).stock_count "Y" = 2 ∧
    (resState (executeAction twoHoldingsPortfolio oversellSecondBatch)).cash = 30 ∧
    (resTrades (executeAction twoHoldingsPortfolio oversellSecondBatch)).length = 1 := by
  norm_num +decide [executeAction, execSells, execBuyPhase, sellsOf, buysOf, Portfolio.update,
    twoHoldingsPortfolio, oversellSecondBatch, isOversell, resState, resTrades, List.filter]

/-- Claim C2, amended: an oversell encountered during the sell phase is
fatal — `execute_action` aborts with the oversell error, no partial
fill of the failing order, no buys execute — and the state carried out
is exactly the state after the sells that preceded the failing one.  In
particular, when the overselling order is the FIRST positive-quantity
sell of the batch (as in the spec's single-sell scenario), the
portfolio is left with no state mutation and no trade recorded. -/
theorem c2_oversell_amended :
    (∀ (p : Portfolio) (actions : List Action) (s : Action) (rest : List Action),
        sellsOf actions = s :: rest → p.stock_count s.ticker < s.quantity →
        executeAction p actions = .oversellError p []) ∧
    (∀ (p : Portfolio) (actions : List Action) (p' : Portfolio) (t' : List Trade),
        execSells p [] (sellsOf actions) = .oversellError p' t' →
        executeAction p actions = .oversellError p' t') := by
  constructor
  · intro p actions s rest hsells hover
    unfold executeAction
    rw [hsells]
    unfold execSells
    rw [if_neg (not_le.mpr hover)]
  · intro p actions p' t' h
    unfold executeAction
    rw [h]

/-- Portfolio holding 5 shares of `X` (the spec's oversell scenario). -/
def oversellScenarioPortfolio : Portfolio :=
  { cash := 0, tickers := ["X"],
    stock_count := fun t => if t = "X" then 5 else 0,
    buy_value := fun _ => 0 }

/-- The spec's oversell batch: sell 10 of `X` with 5 held. -/
def oversellScenarioBatch : List Action :=
  [{ ticker := "X", type := "sell", quantity := 10, price := 100 }]

/-- Witness for the amended C2: holding 5 shares of `X`, the batch
[sell 10 X] fails fatally with the oversell error, the portfolio
unchanged and no trade recorded. -/
theorem c2_oversell_amended_witness :
    executeAction oversellScenarioPortfolio oversellScenarioBatch =
      .oversellError oversellScenarioPortfolio [] :=
  c2_oversell_amended.1 oversellScenarioPortfolio oversellScenarioBatch
    { ticker := "X", type := "sell", quantity := 10, price := 100 } []
    (by simp [sellsOf, oversellScenarioBatch])
    (by norm_num [oversellScenarioPortfolio])

/-! ### Claim C3 — sells execute before buys -/

theorem sellsOf_append (l m : List Action) : sellsOf (l ++ m) = sellsOf l ++ sellsOf m :=
  List.filter_append l m

theorem buysOf_append (l m : List Action) : buysOf (l ++ m) = buysOf l ++ buysOf m :=
  List.filter_append l m

theorem sellsOf_sellsOf (l : List Action) : sellsOf (sellsOf l) = sellsOf l := by
  unfold sellsOf
  exact List.filter_eq_self.mpr (fun _ ha => (List.mem_filter.mp ha).2)

theorem buysOf_buysOf (l : List Action) : buysOf (buysOf l) = buysOf l := by
  unfold buysOf
  exact List.filter_eq_self.mpr (fun _ ha => (List.mem_filter.mp ha).2)

theorem sellsOf_of_buys {l : List Action} (h : ∀ a ∈ l, a.type = "buy") : sellsOf l = [] := by
  rw [sellsOf, List.filter_eq_nil_iff]
  intro a ha
  simp only [Bool.and_eq_true, decide_eq_true_eq, not_and]
  intro _
  rw [h a ha]
  decide

theorem buysOf_of_sells {l : List Action} (h : ∀ a ∈ l, a.type = "sell") : buysOf l = [] := by
  rw [buysOf, List.filter_eq_nil_iff]
  intro a ha
  simp only [Bool.and_eq_true, decide_eq_true_eq, not_and]
  intro _
  rw [h a ha]
  decide

theorem sellsOf_buysOf (l : List Action) : sellsOf (buysOf l) = [] :=
  sellsOf_of_buys (fun _ ha => (mem_buysOf ha).2.2)

theorem buysOf_sellsOf (l : List Action) : buysOf (sellsOf l) = [] :=
  buysOf_of_sells (fun _ ha => (mem_sellsOf ha).2.2)

/-- The spec's sell-before-buy portfolio: cash 0, 100 shares of `A`. -/
def sellBeforeBuyPortfolio : Portfolio :=
  { cash := 0, tickers := ["A", "B"],
    stock_count := fun t => if t = "A" then 100 else 0,
    buy_value := fun _ => 0 }

/-- The spec's sell-before-buy batch, buy listed FIRST:
[buy 100 B @100, sell 100 A @100]. -/
def sellBeforeBuyBatch : List Action :=
  [{ ticker := "B", type := "buy", quantity := 100, price := 100 },
   { ticker := "A", type := "sell", quantity := 100, price := 100 }]

/-- Claim C3: `execute_action` runs all sells first, in batch order,
and funds buys from the post-sell cash.  (1) Executing any batch equals
executing its sells (in order) followed by its buys (in order),
regardless of how the two sides were interleaved; (2) whenever the sell
phase completes with portfolio `p1`, the whole execution continues with
the buy phase against exactly `p1` — so buy affordability and the
rescaling ratio are computed from the post-sell cash; (3) the spec
scenario: cash 0, 100 shares of `A`, batch [buy 100 B @100,
sell 100 A @100] ends with A = 0, B = 100, cash = 0 and no error. -/
theorem c3_sells_before_buys :
    (∀ (p : Portfolio) (actions : List Action),
       executeAction p actions = executeAction p (sellsOf actions ++ buysOf actions)) ∧
    (∀ (p : Portfolio) (actions : List Action) (p1 : Portfolio) (t1 : List Trade),
       execSells p [] (sellsOf actions) = .ok p1 t1 →
       executeAction p actions = execBuyPhase p1 t1 (buysOf actions)) ∧
    (isOversell (executeAction sellBeforeBuyPortfolio sellBeforeBuyBatch) = false ∧
     (resState (executeAction sellBeforeBuyPortfolio sellBeforeBuyBatch)).stock_count "A" = 0 ∧
     (resState (executeAction sellBeforeBuyPortfolio sellBeforeBuyBatch)).stock_count "B" = 100 ∧
     (resState (executeAction sellBeforeBuyPortfolio sellBeforeBuyBatch)).cash = 0) := by
  refine ⟨?_, ?_, ?_⟩
  · intro p actions
    unfold executeAction
    rw [sellsOf_append, buysOf_append, sellsOf_sellsOf, sellsOf_buysOf, buysOf_buysOf,
      buysOf_sellsOf, List.append_nil, List.nil_append]
  · intro p actions p1 t1 h
    unfold executeAction
    rw [h]
  · norm_num +decide [executeAction, execSells, execBuyPhase, execBuys, sellsOf, buysOf,
      Portfolio.update, sellBeforeBuyPortfolio, sellBeforeBuyBatch, isOversell, resState,
      totalBuyCost, List.filter]

/-- Witness for C3's hypothesised part: with the scenario batch, the
sell phase succeeds and execution continues with the buy phase against
the post-sell state. -/
theorem c3_sells_before_buys_witness :
    executeAction sellBeforeBuyPortfolio sellBeforeBuyBatch =
      execBuyPhase (resState (execSells sellBeforeBuyPortfolio [] (sellsOf sellBeforeBuyBatch)))
        (resTrades (execSells sellBeforeBuyPortfolio [] (sellsOf sellBeforeBuyBatch)))
        (buysOf sellBeforeBuyBatch) :=
  c3_sells_before_buys.2.1 sellBeforeBuyPortfolio sellBeforeBuyBatch
    (resState (execSells sellBeforeBuyPortfolio [] (sellsOf sellBeforeBuyBatch)))
    (resTrades (execSells sellBeforeBuyPortfolio [] (sellsOf sellBeforeBuyBatch)))
    (by norm_num +decide [execSells, sellsOf, sellBeforeBuyBatch, Portfolio.update,
      sellBeforeBuyPortfolio, resState, resTrades, List.filter])

/-! ### Claim C5 — percent quantity mode -/

/-- A portfolio with cash 1000 and no holdings. -/
def noHoldingsPortfolio : Portfolio := Portfolio.init 1000 ["X"]

/-- Claim C5, counterexample: with 0 held shares, percent-mode
resolution returns `max(floor(0 * v/100), 1) = 1`, not the claimed `0`;
the `1` even reaches a final buy order when cash suffices. -/
theorem c5_percent_zero_held_cex :
    resolveQuantity "percent" 100 "X" 10 noHoldingsPortfolio = some 1 ∧
    resolveQuantity "percent" 100 "X" 10 noHoldingsPortfolio ≠ some 0 ∧
    (createAction "buy" "X" 10 "percent" 100 noHoldingsPortfolio).map Action.quantity = some 1 := by
  refine ⟨?_, ?_, ?_⟩ <;>
    norm_num +decide [resolveQuantity, createAction, buyClampedQty, noHoldingsPortfolio,
      Portfolio.init]

/-- Claim C5, amended: percent-mode resolution with held shares `h` and
percent value `v` yields `max(floor(h * v/100), 1)` — the minimum of 1
applies unconditionally, including when `h = 0`.  The claimed `0` for
`h = 0` only holds for the final quantity of a SELL order, restored by
the downstream sell clamp `min(quantity, held)`. -/
theorem c5_percent_amended (p : Portfolio) (t : String) (v pr : ℚ) :
    resolveQuantity "percent" v t pr p =
      some (max ⌊(p.stock_count t : ℚ) * (v / 100)⌋ 1) ∧
    (p.stock_count t = 0 →
      (createAction "sell" t pr "percent" v p).map Action.quantity = some 0) := by
  constructor
  · rfl
  · intro h0
    norm_num +decide [createAction, resolveQuantity, h0]

/-- Witness for the amended C5 at cash 1000, 0 shares held, percent
value 100, price 10: resolution gives 1, and the clamped sell order
quantity is 0. -/
theorem c5_percent_amended_witness :
    resolveQuantity "percent" 100 "X" 10 noHoldingsPortfolio =
      some (max ⌊(noHoldingsPortfolio.stock_count "X" : ℚ) * (100 / 100)⌋ 1) ∧
    (createAction "sell" "X" 10 "percent" 100 noHoldingsPortfolio).map Action.quantity = some 0 :=
  ⟨(c5_percent_amended noHoldingsPortfolio "X" 100 10).1,
   (c5_percent_amended noHoldingsPortfolio "X" 100 10).2 rfl⟩

/-! ### Claim C6 — buy feasibility clamp -/

theorem buyClampedQty_eq_min (q : ℤ) (price cash : ℚ) (hp : 0 < price) :
    buyClampedQty q price cash = min q ⌊cash / price⌋ := by
  have hne : price ≠ 0 := ne_of_gt hp
  unfold buyClampedQty
  have h1 : (price * (q : ℚ) - cash) / price = -(cash / price) + (q : ℚ) := by
    field_simp
    ring
  rw [h1, Int.ceil_add_int, Int.ceil_neg]
  omega

/-- Claim C6: for a buy order resolved to integer quantity `q` at price
`p > 0` against cash `c`, `create_action`'s clamp keeps `q` when
`p*q ≤ c` and reduces it to `floor(c/p)` when `p*q > c`; with `q ≥ 0`
and `c ≥ 0` the final quantity is never negative; and the buy branch of
`create_action` emits exactly the clamped quantity. -/
theorem c6_buy_feasibility_clamp (q : ℤ) (price cash : ℚ) (hp : 0 < price) :
    (buyClampedQty q price cash =
      if price * (q : ℚ) ≤ cash then q else ⌊cash / price⌋) ∧
    (0 ≤ q → 0 ≤ cash → 0 ≤ buyClampedQty q price cash) ∧
    (∀ (t : String) (p1 : Portfolio), p1.cash = cash →
      (createAction "buy" t price "count" (q : ℚ) p1).map Action.quantity =
        some (buyClampedQty q price cash)) := by
  have hmin := buyClampedQty_eq_min q price cash hp
  have hfloor : (price * (q : ℚ) ≤ cash) ↔ q ≤ ⌊cash / price⌋ := by
    rw [Int.le_floor, le_div_iff₀ hp, mul_comm]
  refine ⟨?_, ?_, ?_⟩
  · rw [hmin]
    split_ifs with h
    · exact min_eq_left (hfloor.mp h)
    · have : ⌊cash / price⌋ < q := by
        by_contra hc
        exact h (hfloor.mpr (le_of_not_lt hc))
      exact min_eq_right (le_of_lt this)
  · intro hq hc
    rw [hmin]
    have : (0 : ℤ) ≤ ⌊cash / price⌋ := Int.floor_nonneg.mpr (div_nonneg hc (le_of_lt hp))
    omega
  · intro t p1 hcash
    norm_num +decide [createAction, resolveQuantity, Int.floor_intCast, hcash]

/-- Witness for C6 at `q = 5`, price 10, cash 30: the clamp yields
`floor(30/10) = 3`, non-negative, and `create_action` emits it. -/
theorem c6_buy_feasibility_clamp_witness :
    (buyClampedQty 5 10 30 = if (10 : ℚ) * ((5 : ℤ) : ℚ) ≤ 30 then (5 : ℤ) else ⌊(30 : ℚ) / 10⌋) ∧
    (0 ≤ (5 : ℤ) → 0 ≤ (30 : ℚ) → 0 ≤ buyClampedQty 5 10 30) ∧
    (∀ (t : String) (p1 : Portfolio), p1.cash = 30 →
      (createAction "buy" t 10 "count" ((5 : ℤ) : ℚ) p1).map Action.quantity =
        some (buyClampedQty 5 10 30)) :=
  c6_buy_feasibility_clamp 5 10 30 (by norm_num)

/-! ### Claim C7 — cost-basis recurrence and reset -/

/-- Claim C7: (1) a buy of `q > 0` shares at price `pr` into a position
of `n` shares with basis `b` sets the count to `n + q` and the basis to
`(n*b + q*pr)/(n + q)`; (2) a sell that brings the count to exactly `0`
resets the basis to `0`; (3) hence, for portfolios with non-negative
counts, "basis = 0 whenever count = 0" is preserved by every
`Portfolio.update`. -/
theorem c7_cost_basis_recurrence :
    (∀ (p : Portfolio) (t : String) (q : ℤ) (pr : ℚ), 0 < q →
       (p.update t q pr).stock_count t = p.stock_count t + q ∧
       (p.update t q pr).buy_value t =
         ((p.stock_count t : ℚ) * p.buy_value t + (q : ℚ) * pr) /
           ((p.stock_count t : ℚ) + (q : ℚ))) ∧
    (∀ (p : Portfolio) (t : String) (q : ℤ) (pr : ℚ), q < 0 →
       p.stock_count t + q = 0 → (p.update t q pr).buy_value t = 0) ∧
    (∀ (p : Portfolio) (t : String) (q : ℤ) (pr : ℚ),
       (∀ s, p.stock_count s = 0 → p.buy_value s = 0) →
       (∀ s, 0 ≤ p.stock_count s) →
       ∀ s, (p.update t q pr).stock_count s = 0 → (p.update t q pr).buy_value s = 0) := by
  refine ⟨?_, ?_, ?_⟩
  · intro p t q pr hq
    unfold Portfolio.update
    rw [if_pos hq]
    constructor
    · simp
    · push_cast
      simp
  · intro p t q pr hq h0
    unfold Portfolio.update
    rw [if_neg (by omega), if_pos hq]
    simp [h0]
  · intro p t q pr hinv hnn s hs
    rcases lt_trichotomy q 0 with hq | hq | hq
    · by_cases hst : s = t
      · subst hst
        rw [update_count_self p s q pr (by omega)] at hs
        exact update_sell_buy_value_zero p s q pr hq (by omega)
      · rw [update_buy_value_other p t s q pr hst]
        rw [update_stock_count_other p t s q pr hst] at hs
        exact hinv s hs
    · subst hq
      rw [update_zero] at hs ⊢
      exact hinv s hs
    · by_cases hst : s = t
      · subst hst
        rw [update_count_self p s q pr (by omega)] at hs
        have := hnn s
        omega
      · rw [update_buy_value_other p t s q pr hst]
        rw [update_stock_count_other p t s q pr hst] at hs
        exact hinv s hs

/-- A portfolio holding 2 shares of `A` at basis 10 with cash 100. -/
def costBasisDemoPortfolio : Portfolio :=
  { cash := 100, tickers := ["A"],
    stock_count := fun t => if t = "A" then 2 else 0,
    buy_value := fun t => if t = "A" then 10 else 0 }

/-- Witness for C7: buying 2 more shares of `A` at 20 gives count 4 and
basis `(2*10 + 2*20)/4`; selling both original-plus-new positions down
to 0 resets the basis; and the zero-count/zero-basis invariant transfers
through a concrete update. -/
theorem c7_cost_basis_recurrence_witness :
    ((costBasisDemoPortfolio.update "A" 2 20).stock_count "A" = 2 + 2 ∧
     (costBasisDemoPortfolio.update "A" 2 20).buy_value "A" =
       ((2 : ℚ) * 10 + (2 : ℚ) * 20) / ((2 : ℚ) + (2 : ℚ))) ∧
    (costBasisDemoPortfolio.update "A" (-2) 20).buy_value "A" = 0 ∧
    (∀ s, (costBasisDemoPortfolio.update "A" 2 20).stock_count s = 0 →
      (costBasisDemoPortfolio.update "A" 2 20).buy_value s = 0) := by
  refine ⟨?_, ?_, ?_⟩
  · have h := c7_cost_basis_recurrence.1 costBasisDemoPortfolio "A" 2 20 (by norm_num)
    constructor
    · rw [h.1]
      norm_num [costBasisDemoPortfolio]
    · rw [h.2]
      norm_num [costBasisDemoPortfolio]
  · exact c7_cost_basis_recurrence.2.1 costBasisDemoPortfolio "A" (-2) 20 (by norm_num)
      (by norm_num [costBasisDemoPortfolio])
  · refine c7_cost_basis_recurrence.2.2 costBasisDemoPortfolio "A" 2 20 ?_ ?_
    · intro s hs
      by_cases h : s = "A"
      · rw [costBasisDemoPortfolio] at hs
        simp only [h, if_pos] at hs
        norm_num at hs
      · simp only [costBasisDemoPortfolio, if_neg h]
    · intro s
      by_cases h : s = "A" <;> simp [costBasisDemoPortfolio, h]

/-! ### Claim C1 — proportional fairness of buy rationing -/

/-- The trades the buy loop records under scaling ratio `ratio`: one
per buy order whose floored scaled quantity is positive, carrying
exactly `floor(quantity * ratio)`. -/
def scaledBuyTrades (ratio : ℚ) (buys : List Action) : List Trade :=
  buys.filterMap (fun a =>
    if 0 < ⌊(a.quantity : ℚ) * ratio⌋ then some (buyTradeOf a ⌊(a.quantity : ℚ) * ratio⌋)
    else none)

/-- The total cash spent by the buy loop under scaling ratio `ratio`. -/
def scaledSpend (ratio : ℚ) (buys : List Action) : ℚ :=
  (buys.map (fun a =>
    if 0 < ⌊(a.quantity : ℚ) * ratio⌋ then ((⌊(a.quantity : ℚ) * ratio⌋ : ℤ) : ℚ) * a.price
    else 0)).sum

theorem scaledSpend_nil (ratio : ℚ) : scaledSpend ratio [] = 0 := rfl

theorem scaledSpend_cons (ratio : ℚ) (a : Action) (rest : List Action) :
    scaledSpend ratio (a :: rest) =
      (if 0 < ⌊(a.quantity : ℚ) * ratio⌋ then ((⌊(a.quantity : ℚ) * ratio⌋ : ℤ) : ℚ) * a.price
       else 0) + scaledSpend ratio rest := by
  simp [scaledSpend]

theorem scaledSpend_nonneg (ratio : ℚ) (buys : List Action)
    (hp : ∀ a ∈ buys, 0 ≤ a.price) : 0 ≤ scaledSpend ratio buys := by
  induction buys with
  | nil => simp [scaledSpend]
  | cons a rest ih =>
    rw [scaledSpend_cons]
    have h1 : 0 ≤ scaledSpend ratio rest := ih (fun b hb => hp b (List.mem_cons_of_mem a hb))
    have h2 : (0 : ℚ) ≤
        if 0 < ⌊(a.quantity : ℚ) * ratio⌋ then ((⌊(a.quantity : ℚ) * ratio⌋ : ℤ) : ℚ) * a.price
        else 0 := by
      split_ifs with h
      · exact mul_nonneg (by exact_mod_cast le_of_lt h) (hp a (List.mem_cons_self a rest))
      · exact le_refl 0
    linarith

/-- Under the uniform ratio, the buy loop records exactly the floored
trades and spends exactly `scaledSpend`, provided the scaled total fits
in the available cash: the per-order cash re-check never trips. -/
theorem execBuys_spec (buys : List Action) : ∀ (p : Portfolio) (trades : List Trade) (ratio : ℚ),
    (∀ a ∈ buys, 0 ≤ a.price) → scaledSpend ratio buys ≤ p.cash →
    (execBuys p trades ratio buys).2 = trades ++ scaledBuyTrades ratio buys ∧
    (execBuys p trades ratio buys).1.cash = p.cash - scaledSpend ratio buys := by
  induction buys with
  | nil =>
    intro p trades ratio _ _
    simp [execBuys, scaledBuyTrades, scaledSpend]
  | cons a rest ih =>
    intro p trades ratio hp hsum
    have hpr : ∀ b ∈ rest, 0 ≤ b.price := fun b hb => hp b (List.mem_cons_of_mem a hb)
    by_cases hq : 0 < ⌊(a.quantity : ℚ) * ratio⌋
    · have hspend := scaledSpend_cons ratio a rest
      rw [if_pos hq] at hspend
      have hrest : 0 ≤ scaledSpend ratio rest := scaledSpend_nonneg ratio rest hpr
      have hcost : ((⌊(a.quantity : ℚ) * ratio⌋ : ℤ) : ℚ) * a.price ≤ p.cash := by
        rw [hspend] at hsum
        linarith
      have hcash : (p.update a.ticker ⌊(a.quantity : ℚ) * ratio⌋ a.price).cash =
          p.cash - ((⌊(a.quantity : ℚ) * ratio⌋ : ℤ) : ℚ) * a.price :=
        update_buy_cash p a.ticker ⌊(a.quantity : ℚ) * ratio⌋ a.price hq
      have hstep : execBuys p trades ratio (a :: rest) =
          execBuys (p.update a.ticker ⌊(a.quantity : ℚ) * ratio⌋ a.price)
            (trades ++ [buyTradeOf a ⌊(a.quantity : ℚ) * ratio⌋]) ratio rest := by
        simp only [execBuys]
        rw [if_pos hq, if_pos hcost]
      obtain ⟨h1, h2⟩ := ih (p.update a.ticker ⌊(a.quantity : ℚ) * ratio⌋ a.price)
        (trades ++ [buyTradeOf a ⌊(a.quantity : ℚ) * ratio⌋]) ratio hpr
        (by rw [hcash]; rw [hspend] at hsum; linarith)
      constructor
      · rw [hstep, h1]
        simp [scaledBuyTrades, hq]
      · rw [hstep, h2, hcash, hspend]
        ring
    · have hspend := scaledSpend_cons ratio a rest
      rw [if_neg hq] at hspend
      have hstep : execBuys p trades ratio (a :: rest) = execBuys p trades ratio rest := by
        simp only [execBuys]
        rw [if_neg hq]
      obtain ⟨h1, h2⟩ := ih p trades ratio hpr (by rw [hspend] at hsum; linarith)
      constructor
      · rw [hstep, h1]
        simp [scaledBuyTrades, hq]
      · rw [hstep, h2, hspend]
        ring

/-- The scaled spend is bounded by `ratio` times the requested total
cost when prices and quantities are positive and the ratio
non-negative. -/
theorem scaledSpend_le (buys : List Action) (ratio : ℚ) (hr : 0 ≤ ratio)
    (hp : ∀ a ∈ buys, 0 < a.price) (hq : ∀ a ∈ buys, 0 < a.quantity) :
    scaledSpend ratio buys ≤ ratio * totalBuyCost buys := by
  unfold scaledSpend totalBuyCost
  have hle : ∀ a ∈ buys,
      (if 0 < ⌊(a.quantity : ℚ) * ratio⌋ then ((⌊(a.quantity : ℚ) * ratio⌋ : ℤ) : ℚ) * a.price
       else 0) ≤ ratio * (a.price * (a.quantity : ℚ)) := by
    intro a ha
    split_ifs with h
    · calc ((⌊(a.quantity : ℚ) * ratio⌋ : ℤ) : ℚ) * a.price
          ≤ ((a.quantity : ℚ) * ratio) * a.price :=
            mul_le_mul_of_nonneg_right (Int.floor_le _) (le_of_lt (hp a ha))
        _ = ratio * (a.price * (a.quantity : ℚ)) := by ring
    · have h1 : (0 : ℚ) ≤ (a.quantity : ℚ) := by exact_mod_cast le_of_lt (hq a ha)
      have h2 : (0 : ℚ) ≤ a.price := le_of_lt (hp a ha)
      positivity
  calc (buys.map (fun a =>
        if 0 < ⌊(a.quantity : ℚ) * ratio⌋ then ((⌊(a.quantity : ℚ) * ratio⌋ : ℤ) : ℚ) * a.price
        else 0)).sum
      ≤ (buys.map (fun a => ratio * (a.price * (a.quantity : ℚ)))).sum := List.sum_le_sum hle
    _ = ratio * (buys.map (fun a => a.price * (a.quantity : ℚ))).sum :=
        List.sum_map_mul_left buys (fun a => a.price * (a.quantity : ℚ)) ratio

/-- Claim C1: when the positive-price buy orders of a batch cost more
in total than the cash `A` available after the sells (`A > 0`, total
`C > A`), `execute_action` rescales every buy order through the single
uniform ratio `A/C` — each recorded buy trade carries exactly
`floor(requested * A/C)` shares (orders flooring to 0 are dropped) —
and the total spent on buys, `scaledSpend`, never exceeds `A`. -/
theorem c1_proportional_rationing (p : Portfolio) (actions : List Action)
    (p1 : Portfolio) (t1 : List Trade)
    (hs : execSells p [] (sellsOf actions) = .ok p1 t1)
    (hprice : ∀ a ∈ buysOf actions, 0 < a.price)
    (hC : p1.cash < totalBuyCost (buysOf actions))
    (hA : 0 < p1.cash) :
    ∃ p2 : Portfolio,
      executeAction p actions =
        .ok p2 (t1 ++ scaledBuyTrades (p1.cash / totalBuyCost (buysOf actions))
          (buysOf actions)) ∧
      p2.cash = p1.cash -
        scaledSpend (p1.cash / totalBuyCost (buysOf actions)) (buysOf actions) ∧
      scaledSpend (p1.cash / totalBuyCost (buysOf actions)) (buysOf actions) ≤ p1.cash := by
  have hqty : ∀ a ∈ buysOf actions, 0 < a.quantity := fun a ha => (mem_buysOf ha).2.1
  have hCpos : 0 < totalBuyCost (buysOf actions) := lt_trans hA hC
  have hr : 0 ≤ p1.cash / totalBuyCost (buysOf actions) :=
    div_nonneg (le_of_lt hA) (le_of_lt hCpos)
  have hbound : scaledSpend (p1.cash / totalBuyCost (buysOf actions)) (buysOf actions)
      ≤ p1.cash := by
    have h1 := scaledSpend_le (buysOf actions) (p1.cash / totalBuyCost (buysOf actions))
      hr hprice hqty
    rwa [div_mul_cancel₀ p1.cash (ne_of_gt hCpos)] at h1
  have hBne : buysOf actions ≠ [] := by
    intro h
    rw [h] at hC
    simp [totalBuyCost] at hC
    linarith
  obtain ⟨h1, h2⟩ := execBuys_spec (buysOf actions) p1 t1
    (p1.cash / totalBuyCost (buysOf actions)) (fun a ha => le_of_lt (hprice a ha)) hbound
  refine ⟨(execBuys p1 t1 (p1.cash / totalBuyCost (buysOf actions)) (buysOf actions)).1,
    ?_, h2, hbound⟩
  rw [executeAction_ok p actions p1 t1 hs]
  unfold execBuyPhase
  rw [if_neg hBne, if_pos ⟨hC, hA⟩, h1]

/-- The spec's fair-allocation portfolio: cash 10000, no holdings. -/
def fairAllocPortfolio : Portfolio := Portfolio.init 10000 ["A", "B", "C"]

/-- The spec's fair-allocation batch: three buys of 50 shares at price
100 (total cost 15000 over cash 10000). -/
def fairAllocBatch : List Action :=
  [{ ticker := "A", type := "buy", quantity := 50, price := 100 },
   { ticker := "B", type := "buy", quantity := 50, price := 100 },
   { ticker := "C", type := "buy", quantity := 50, price := 100 }]

/-- Witness for C1 at the spec's fair-allocation scenario (cash 10000,
three 50-share buys at price 100): every recorded trade carries
`floor(50 * 10000/15000) = 33` shares and the spend stays within the
available cash. -/
theorem c1_proportional_rationing_witness :
    ∃ p2 : Portfolio,
      executeAction fairAllocPortfolio fairAllocBatch =
        .ok p2 ([] ++ scaledBuyTrades
          (fairAllocPortfolio.cash / totalBuyCost (buysOf fairAllocBatch))
          (buysOf fairAllocBatch)) ∧
      p2.cash = fairAllocPortfolio.cash -
        scaledSpend (fairAllocPortfolio.cash / totalBuyCost (buysOf fairAllocBatch))
          (buysOf fairAllocBatch) ∧
      scaledSpend (fairAllocPortfolio.cash / totalBuyCost (buysOf fairAllocBatch))
        (buysOf fairAllocBatch) ≤ fairAllocPortfolio.cash :=
  c1_proportional_rationing fairAllocPortfolio fairAllocBatch fairAllocPortfolio []
    (by norm_num +decide [execSells, sellsOf, fairAllocBatch, List.filter])
    (by norm_num +decide [buysOf, fairAllocBatch, List.filter])
    (by norm_num +decide [buysOf, totalBuyCost, fairAllocBatch, fairAllocPortfolio,
      Portfolio.init, List.filter])
    (by norm_num [fairAllocPortfolio, Portfolio.init])

/-! ### Claim C4 — non-negativity invariant of execution -/

theorem execSells_nonneg (sells : List Action) :
    ∀ (p : Portfolio) (tr : List Trade) (p1 : Portfolio) (t1 : List Trade),
    (∀ a ∈ sells, 0 ≤ a.price) → (∀ a ∈ sells, 0 < a.quantity) →
    0 ≤ p.cash → (∀ t, 0 ≤ p.stock_count t) →
    execSells p tr sells = .ok p1 t1 →
    0 ≤ p1.cash ∧ ∀ t, 0 ≤ p1.stock_count t := by
  induction sells with
  | nil =>
    intro p tr p1 t1 _ _ h0 hsh h
    simp only [execSells] at h
    cases h
    exact ⟨h0, hsh⟩
  | cons a rest ih =>
    intro p tr p1 t1 hpr hqt h0 hsh h
    simp only [execSells] at h
    by_cases hle : a.quantity ≤ p.stock_count a.ticker
    · rw [if_pos hle] at h
      have hq : 0 < a.quantity := hqt a (List.mem_cons_self a rest)
      have hcash : 0 ≤ (p.update a.ticker (-a.quantity) a.price).cash := by
        rw [update_sell_cash p a.ticker a.quantity a.price hq]
        have : (0 : ℚ) ≤ (a.quantity : ℚ) * a.price :=
          mul_nonneg (by exact_mod_cast le_of_lt hq) (hpr a (List.mem_cons_self a rest))
        linarith
      have hcnt : ∀ t, 0 ≤ (p.update a.ticker (-a.quantity) a.price).stock_count t := by
        intro t
        by_cases ht : t = a.ticker
        · rw [ht, update_sell_count p a.ticker a.quantity a.price hq]
          omega
        · rw [update_stock_count_other p a.ticker t (-a.quantity) a.price ht]
          exact hsh t
      exact ih (p.update a.ticker (-a.quantity) a.price) (tr ++ [sellTradeOf a]) p1 t1
        (fun b hb => hpr b (List.mem_cons_of_mem a hb))
        (fun b hb => hqt b (List.mem_cons_of_mem a hb)) hcash hcnt h
    · rw [if_neg hle] at h
      cases h

theorem execBuys_nonneg (buys : List Action) :
    ∀ (p : Portfolio) (tr : List Trade) (ratio : ℚ),
    0 ≤ p.cash → (∀ t, 0 ≤ p.stock_count t) →
    0 ≤ (execBuys p tr ratio buys).1.cash ∧
    ∀ t, 0 ≤ (execBuys p tr ratio buys).1.stock_count t := by
  induction buys with
  | nil =>
    intro p tr ratio h0 hsh
    exact ⟨h0, hsh⟩
  | cons a rest ih =>
    intro p tr ratio h0 hsh
    simp only [execBuys]
    by_cases hq : 0 < ⌊(a.quantity : ℚ) * ratio⌋
    · rw [if_pos hq]
      by_cases hcost : ((⌊(a.quantity : ℚ) * ratio⌋ : ℤ) : ℚ) * a.price ≤ p.cash
      · rw [if_pos hcost]
        have hcash : 0 ≤ (p.update a.ticker ⌊(a.quantity : ℚ) * ratio⌋ a.price).cash := by
          rw [update_buy_cash p a.ticker ⌊(a.quantity : ℚ) * ratio⌋ a.price hq]
          linarith
        have hcnt : ∀ t,
            0 ≤ (p.update a.ticker ⌊(a.quantity : ℚ) * ratio⌋ a.price).stock_count t := by
          intro t
          by_cases ht : t = a.ticker
          · rw [ht, update_buy_count p a.ticker ⌊(a.quantity : ℚ) * ratio⌋ a.price hq]
            have := hsh a.ticker
            omega
          · rw [update_stock_count_other p a.ticker t ⌊(a.quantity : ℚ) * ratio⌋ a.price ht]
            exact hsh t
        exact ih (p.update a.ticker ⌊(a.quantity : ℚ) * ratio⌋ a.price)
          (tr ++ [buyTradeOf a ⌊(a.quantity : ℚ) * ratio⌋]) ratio hcash hcnt
      · rw [if_neg hcost]
        exact ih p tr ratio h0 hsh
    · rw [if_neg hq]
      exact ih p tr ratio h0 hsh

/-- Claim C4: starting from cash ≥ 0 and all share counts ≥ 0, any
`execute_action` batch of non-negative-price orders that does not raise
the oversell error leaves cash ≥ 0 and every ticker's share count
≥ 0. -/
theorem c4_nonneg_invariant (p : Portfolio) (actions : List Action)
    (h0 : 0 ≤ p.cash) (hsh : ∀ t, 0 ≤ p.stock_count t)
    (hpr : ∀ a ∈ actions, 0 ≤ a.price)
    (hok : isOversell (executeAction p actions) = false) :
    0 ≤ (resState (executeAction p actions)).cash ∧
    ∀ t, 0 ≤ (resState (executeAction p actions)).stock_count t := by
  cases h : execSells p [] (sellsOf actions) with
  | oversellError p2 t2 =>
    exfalso
    unfold executeAction at hok
    rw [h] at hok
    simp [isOversell] at hok
  | ok p1 t1 =>
    have hinv := execSells_nonneg (sellsOf actions) p [] p1 t1
      (fun a ha => hpr a (mem_sellsOf ha).1) (fun a ha => (mem_sellsOf ha).2.1) h0 hsh h
    rw [executeAction_ok p actions p1 t1 h]
    unfold execBuyPhase
    split_ifs with h1 h2 h3
    · exact hinv
    · exact execBuys_nonneg (buysOf actions) p1 t1
        (p1.cash / totalBuyCost (buysOf actions)) hinv.1 hinv.2
    · exact hinv
    · exact execBuys_nonneg (buysOf actions) p1 t1 1 hinv.1 hinv.2

/-- Portfolio with cash 100 and no holdings. -/
def smallCashPortfolio : Portfolio := Portfolio.init 100 ["A"]

/-- A single affordable buy order. -/
def smallBuyBatch : List Action :=
  [{ ticker := "A", type := "buy", quantity := 1, price := 50 }]

/-- Witness for C4: executing [buy 1 A @50] from cash 100 succeeds and
leaves cash and every share count non-negative. -/
theorem c4_nonneg_invariant_witness :
    0 ≤ (resState (executeAction smallCashPortfolio smallBuyBatch)).cash ∧
    ∀ t, 0 ≤ (resState (executeAction smallCashPortfolio smallBuyBatch)).stock_count t :=
  c4_nonneg_invariant smallCashPortfolio smallBuyBatch
    (by norm_num [smallCashPortfolio, Portfolio.init])
    (fun t => le_refl 0)
    (by norm_num +decide [smallBuyBatch])
    (by norm_num +decide [executeAction, execSells, execBuyPhase, execBuys, sellsOf, buysOf,
      Portfolio.update, smallCashPortfolio, smallBuyBatch, Portfolio.init, isOversell,
      totalBuyCost, List.filter, buyTradeOf])

/-! ### Claim C8 — threshold baseline and direction policy -/

/-- Claim C8: the baseline (`criteria`) equals cost basis plus value
for `point`, cost basis times `(100+value)/100` for `profit-rate`, the
raw value for `percent-change`; and a rule application emits an order
exactly when value ≤ 0 and indicator ≤ baseline, or value > 0 and
indicator ≥ baseline. -/
theorem c8_threshold_direction :
    (∀ (v cb : ℚ), criteriaOf "point" v cb = some (cb + v)) ∧
    (∀ (v cb : ℚ), criteriaOf "profit-rate" v cb = some (cb * ((100 + v) / 100))) ∧
    (∀ (v cb : ℚ), criteriaOf "percent-change" v cb = some v) ∧
    (∀ (side ticker : String) (price : ℚ) (rule : SideRule) (p : Portfolio)
       (ind : ℚ) (acts : List Action),
       applySide side ticker price rule p ind = some acts →
       (acts ≠ [] ↔ ∃ b, criteriaOf rule.kind rule.value (p.buy_value ticker) = some b ∧
          ((rule.value ≤ 0 ∧ ind ≤ b) ∨ (0 < rule.value ∧ b ≤ ind)))) := by
  refine ⟨fun v cb => rfl, fun v cb => rfl, fun v cb => rfl, ?_⟩
  intro side ticker price rule p ind acts h
  unfold applySide at h
  cases hcrit : criteriaOf rule.kind rule.value (p.buy_value ticker) with
  | none =>
    rw [hcrit] at h
    cases h
  | some b =>
    rw [hcrit] at h
    dsimp only at h
    by_cases hv : rule.value ≤ 0
    · rw [if_pos hv] at h
      by_cases hle : ind ≤ b
      · rw [if_pos hle] at h
        obtain ⟨a, _, rfl⟩ := Option.map_eq_some'.mp h
        simp only [ne_eq, List.cons_ne_nil, not_false_eq_true, true_iff]
        exact ⟨b, rfl, Or.inl ⟨hv, hle⟩⟩
      · rw [if_neg hle] at h
        rw [Option.some.injEq] at h
        subst h
        constructor
        · intro hne
          exact absurd rfl hne
        · rintro ⟨b2, hb2, hdir⟩
          rw [Option.some.injEq] at hb2
          subst hb2
          rcases hdir with ⟨_, hle2⟩ | ⟨hv2, _⟩
          · exact absurd hle2 hle
          · exact absurd hv (not_le.mpr hv2)
    · rw [if_neg hv] at h
      by_cases hge : b ≤ ind
      · rw [if_pos hge] at h
        obtain ⟨a, _, rfl⟩ := Option.map_eq_some'.mp h
        simp only [ne_eq, List.cons_ne_nil, not_false_eq_true, true_iff]
        exact ⟨b, rfl, Or.inr ⟨not_le.mp hv, hge⟩⟩
      · rw [if_neg hge] at h
        rw [Option.some.injEq] at h
        subst h
        constructor
        · intro hne
          exact absurd rfl hne
        · rintro ⟨b2, hb2, hdir⟩
          rw [Option.some.injEq] at hb2
          subst hb2
          rcases hdir with ⟨hv2, _⟩ | ⟨_, hge2⟩
          · exact absurd hv2 hv
          · exact absurd hge2 hge

/-- A rule with a negative point threshold (fires on cheap/falling). -/
def cheapRule : SideRule := { kind := "point", value := -5, qtype := "count", qval := 10 }

/-- Portfolio with cash 10000, no open position (basis 0). -/
def richPortfolio : Portfolio := Portfolio.init 10000 ["A"]

/-- Witness for C8: the point baseline at basis 100, and the emission
characterisation for `cheapRule` (baseline 0 + (-5) = -5) against
indicator -10 ≤ -5 — the order list produced is nonempty. -/
theorem c8_threshold_direction_witness :
    criteriaOf "point" (-5) 100 = some (100 + -5) ∧
    ([{ ticker := "A", type := "buy", quantity := 10, price := 10 }] ≠ ([] : List Action) ↔
      ∃ b, criteriaOf cheapRule.kind cheapRule.value (richPortfolio.buy_value "A") = some b ∧
        ((cheapRule.value ≤ 0 ∧ (-10 : ℚ) ≤ b) ∨ (0 < cheapRule.value ∧ b ≤ (-10 : ℚ)))) :=
  ⟨c8_threshold_direction.1 (-5) 100,
   c8_threshold_direction.2.2.2 "buy" "A" 10 cheapRule richPortfolio (-10)
     [{ ticker := "A", type := "buy", quantity := 10, price := 10 }]
     (by norm_num +decide [applySide, criteriaOf, cheapRule, createAction, resolveQuantity,
       buyClampedQty, richPortfolio, Portfolio.init])⟩

/-! ### Claim C10 — evaluator-produced sells cannot oversell -/

theorem createAction_type_ticker (side t : String) (pr : ℚ) (qtype : String) (qval : ℚ)
    (p : Portfolio) (a : Action) (h : createAction side t pr qtype qval p = some a) :
    a.type = side ∧ a.ticker = t := by
  unfold createAction at h
  cases hq : resolveQuantity qtype qval t pr p with
  | none =>
    rw [hq] at h
    cases h
  | some q =>
    rw [hq] at h
    dsimp only at h
    split_ifs at h with h1 h2
    · rw [Option.some.injEq] at h
      subst h
      exact ⟨rfl, rfl⟩
    · rw [Option.some.injEq] at h
      subst h
      exact ⟨rfl, rfl⟩

theorem createAction_sell_clamped (t : String) (pr : ℚ) (qtype : String) (qval : ℚ)
    (p : Portfolio) (a : Action) (h : createAction "sell" t pr qtype qval p = some a) :
    a.quantity ≤ p.stock_count a.ticker := by
  unfold createAction at h
  cases hq : resolveQuantity qtype qval t pr p with
  | none =>
    rw [hq] at h
    cases h
  | some q =>
    rw [hq] at h
    dsimp only at h
    split_ifs at h with h1 h2
    · exact absurd h1 (by decide)
    · rw [Option.some.injEq] at h
      subst h
      exact min_le_right q (p.stock_count t)

theorem applySide_cases (side t : String) (pr : ℚ) (rule : SideRule) (p : Portfolio)
    (ind : ℚ) (acts : List Action) (h : applySide side t pr rule p ind = some acts) :
    acts = [] ∨ ∃ a, acts = [a] ∧ createAction side t pr rule.qtype rule.qval p = some a := by
  unfold applySide at h
  cases hc : criteriaOf rule.kind rule.value (p.buy_value t) with
  | none =>
    rw [hc] at h
    cases h
  | some b =>
    rw [hc] at h
    dsimp only at h
    split_ifs at h with h1 h2 h3
    · obtain ⟨a, ha, rfl⟩ := Option.map_eq_some'.mp h
      exact Or.inr ⟨a, rfl, ha⟩
    · rw [Option.some.injEq] at h
      exact Or.inl h.symm
    · obtain ⟨a, ha, rfl⟩ := Option.map_eq_some'.mp h
      exact Or.inr ⟨a, rfl, ha⟩
    · rw [Option.some.injEq] at h
      exact Or.inl h.symm

theorem execSells_ok (sells : List Action) : ∀ (p : Portfolio) (tr : List Trade),
    (∀ a ∈ sells, a.quantity ≤ p.stock_count a.ticker) →
    (sells.map Action.ticker).Nodup →
    ∃ p1 t1, execSells p tr sells = .ok p1 t1 := by
  induction sells with
  | nil =>
    intro p tr _ _
    exact ⟨p, tr, rfl⟩
  | cons a rest ih =>
    intro p tr hb hnd
    have hle : a.quantity ≤ p.stock_count a.ticker := hb a (List.mem_cons_self a rest)
    rw [List.map_cons, List.nodup_cons] at hnd
    obtain ⟨hna, hnd2⟩ := hnd
    have hrest : ∀ b ∈ rest,
        b.quantity ≤ (p.update a.ticker (-a.quantity) a.price).stock_count b.ticker := by
      intro b hbmem
      have hbt : b.ticker ≠ a.ticker := by
        intro he
        exact hna (by rw [← he]; exact List.mem_map_of_mem Action.ticker hbmem)
      rw [update_stock_count_other p a.ticker b.ticker (-a.quantity) a.price hbt]
      exact hb b (List.mem_cons_of_mem a hbmem)
    obtain ⟨p1, t1, h1⟩ := ih (p.update a.ticker (-a.quantity) a.price)
      (tr ++ [sellTradeOf a]) hrest hnd2
    refine ⟨p1, t1, ?_⟩
    simp only [execSells]
    rw [if_pos hle]
    exact h1

theorem execBuyPhase_not_oversell (p1 : Portfolio) (t1 : List Trade) (buys : List Action) :
    isOversell (execBuyPhase p1 t1 buys) = false := by
  unfold execBuyPhase
  split_ifs <;> rfl

/-- Claim C10: every sell order emitted by `create_action` is clamped
to the held shares of its ticker, and executing a batch produced by
`apply_strategy` against the same portfolio never reaches the oversell
failure branch of `execute_action`. -/
theorem c10_evaluator_never_oversells :
    (∀ (t : String) (pr : ℚ) (qtype : String) (qval : ℚ) (p : Portfolio) (a : Action),
       createAction "sell" t pr qtype qval p = some a →
       a.quantity ≤ p.stock_count a.ticker) ∧
    (∀ (t : String) (pr : ℚ) (buyRule sellRule : SideRule) (buyInd sellInd : ℚ)
       (p : Portfolio) (l : List Action),
       applyStrategy t pr buyRule sellRule buyInd sellInd p = some l →
       isOversell (executeAction p l) = false) := by
  constructor
  · exact createAction_sell_clamped
  · intro t pr buyRule sellRule buyInd sellInd p l h
    unfold applyStrategy at h
    cases hbuy : applySide "buy" t pr buyRule p buyInd with
    | none =>
      rw [hbuy] at h
      cases h
    | some buyActs =>
      rw [hbuy] at h
      dsimp only at h
      cases hsell : applySide "sell" t pr sellRule p sellInd with
      | none =>
        rw [hsell] at h
        cases h
      | some sellActs =>
        rw [hsell] at h
        rw [Option.some.injEq] at h
        subst h
        have hbuyTypes : ∀ a ∈ buyActs, a.type = "buy" := by
          intro a ha
          rcases applySide_cases "buy" t pr buyRule p buyInd buyActs hbuy with h0 | ⟨b, hb, hcb⟩
          · rw [h0] at ha
            cases ha
          · rw [hb] at ha
            rw [List.mem_singleton] at ha
            subst ha
            exact (createAction_type_ticker "buy" t pr buyRule.qtype buyRule.qval p a hcb).1
        have hsplit : sellsOf (buyActs ++ sellActs) = sellsOf sellActs := by
          rw [sellsOf_append, sellsOf_of_buys hbuyTypes, List.nil_append]
        have hbounds : ∀ a ∈ sellsOf (buyActs ++ sellActs),
            a.quantity ≤ p.stock_count a.ticker := by
          intro a ha
          rw [hsplit] at ha
          have ha2 : a ∈ sellActs := (mem_sellsOf ha).1
          rcases applySide_cases "sell" t pr sellRule p sellInd sellActs hsell with
            h0 | ⟨b, hb, hcb⟩
          · rw [h0] at ha2
            cases ha2
          · rw [hb] at ha2
            rw [List.mem_singleton] at ha2
            subst ha2
            exact createAction_sell_clamped t pr sellRule.qtype sellRule.qval p a hcb
        have hnodup : ((sellsOf (buyActs ++ sellActs)).map Action.ticker).Nodup := by
          rw [hsplit]
          rcases applySide_cases "sell" t pr sellRule p sellInd sellActs hsell with
            h0 | ⟨b, hb, _⟩
          · rw [h0]
            simp [sellsOf]
          · rw [hb]
            rw [sellsOf, List.filter_singleton]
            cases decide (0 < b.quantity) && decide (b.type = "sell") <;> simp
        obtain ⟨p1, t1, hok⟩ := execSells_ok (sellsOf (buyActs ++ sellActs)) p [] hbounds hnodup
        rw [executeAction_ok p (buyActs ++ sellActs) p1 t1 hok]
        exact execBuyPhase_not_oversell p1 t1 (buysOf (buyActs ++ sellActs))

/-- Portfolio holding 5 shares of `A` at basis 10, cash 100. -/
def holdingFivePortfolio : Portfolio :=
  { cash := 100, tickers := ["A"],
    stock_count := fun t => if t = "A" then 5 else 0,
    buy_value := fun t => if t = "A" then 10 else 0 }

/-- Sell rule used in the C10 witness: positive point threshold,
percent-100 sizing. -/
def sellAllRule : SideRule := { kind := "point", value := 5, qtype := "percent", qval := 100 }

/-- Buy rule used in the C10 witness: negative point threshold, count-1
sizing. -/
def buyOneRule : SideRule := { kind := "point", value := -5, qtype := "count", qval := 1 }

/-- Witness for C10: the concrete evaluator output
[buy 1 A @10, sell 5 A @10] (both rules fire on the 5-share portfolio)
executes with no oversell error; and the clamp fact at the emitted sell
action. -/
theorem c10_evaluator_never_oversells_witness :
    isOversell (executeAction holdingFivePortfolio
      [{ ticker := "A", type := "buy", quantity := 1, price := 10 },
       { ticker := "A", type := "sell", quantity := 5, price := 10 }]) = false ∧
    ({ ticker := "A", type := "sell", quantity := 5, price := 10 } : Action).quantity ≤
      holdingFivePortfolio.stock_count "A" :=
  ⟨c10_evaluator_never_oversells.2 "A" 10 buyOneRule sellAllRule 4 20 holdingFivePortfolio
     [{ ticker := "A", type := "buy", quantity := 1, price := 10 },
      { ticker := "A", type := "sell", quantity := 5, price := 10 }]
     (by norm_num +decide [applyStrategy, applySide, criteriaOf, createAction, resolveQuantity,
       buyClampedQty, buyOneRule, sellAllRule, holdingFivePortfolio]),
   c10_evaluator_never_oversells.1 "A" 10 "percent" 100 holdingFivePortfolio
     { ticker := "A", type := "sell", quantity := 5, price := 10 }
     (by norm_num +decide [createAction, resolveQuantity, holdingFivePortfolio])⟩

/-! ### Claim C9 — as-of valuation mutates the canonical price series -/

/-- Portfolio tracking `X` with 2 shares held and cash 10. -/
def valuationDemoPortfolio : Portfolio :=
  { cash := 10, tickers := ["X"], stock_count := fun _ => 2, buy_value := fun _ => 0 }

/-- A price series for `X` with rows at dates 1 and 3 only. -/
def valuationDemoSeries : StockData :=
  { ticker := "X", rows := [(1, some 5), (3, some 7)] }

/-- Claim C9 exhibit: valuing the portfolio at date 2 — a date absent
from the series — inserts the placeholder row `(2, none)` into the
live series (it grows from 2 rows to 3), contradicting the claim that
the canonical series is left unchanged; the value itself uses the as-of
row at date 1 (10 + 2*5 = 20). -/
theorem c9_series_mutation :
    (getProtfolioValue valuationDemoPortfolio [valuationDemoSeries] 2).1 =
      [{ ticker := "X", rows := [(1, some 5), (2, none), (3, some 7)] }] ∧
    (getProtfolioValue valuationDemoPortfolio [valuationDemoSeries] 2).1 ≠
      [valuationDemoSeries] ∧
    (getProtfolioValue valuationDemoPortfolio [valuationDemoSeries] 2).2 = some 20 := by
  refine ⟨?_, ?_, ?_⟩ <;>
    norm_num +decide [getProtfolioValue, valueLoop, insertSorted, asofClose,
      valuationDemoPortfolio, valuationDemoSeries, List.filter]

end PyBacktest
